import Mathlib

/-!
# MirrorDNA core: a shallow embedding with verified properties

This file embeds the integrity-and-continuity core of the MirrorDNA
repository in Lean 4 and proves properties of it:

* `checksum.py`   — SHA-256 checksumming of files, text and structured state
                    (`compute_file_checksum`, `compute_state_checksum`,
                    `compute_text_checksum`, `verify_checksum`);
* `vault_manager.py` — `VaultID` (with `to_uri` / `from_uri`) and
                    `LineageChain` (`append`, `verify_integrity`);
* `truth_state.py` — `TruthAssertion` validation, `TruthStateEnforcer`
                    (`assert_unknown`, `detect_drift`);
* `storage.py`    — `JSONFileStorage` (`create`, `read`).

Modelling conventions:

* Python dictionaries / JSON documents are modelled by the inductive type
  `Val` (floats are outside the modelled domain; none of the core code
  paths under study manipulate them).
* File-system access is modelled by passing an explicit file system
  `Fs := List (String × List Nat)` (path ↦ byte contents); `Path.exists`
  becomes a lookup.  I/O failures below this granularity (permission
  errors, races) are not modelled.
* Wall-clock timestamps (`datetime.utcnow()`) are passed in as an explicit
  `now : String` argument wherever the source stamps a time.
* Python exceptions become `Except Err α`; raising before mutation means
  the state value is simply not produced, which models "the structure is
  unchanged" for in-memory objects.
* Python `float` confidences are modelled as `ℚ`; the source only ever
  compares them against the exact constants `0.0` and `1.0`.
* SHA-256 is implemented concretely over byte lists; theorems use it only
  through congruence, never by evaluating a digest.
-/

/-! ## JSON-like values (Python dict / list / scalar payloads) -/

/-- A structured value: the payloads `json.dumps` can serialize, minus
floats (outside the modelled domain). Objects are association lists in
insertion order, as Python dicts are. -/
inductive Val where
  | null
  | bool (b : Bool)
  | int (n : Int)
  | str (s : String)
  | arr (elems : List Val)
  | obj (entries : List (String × Val))

mutual

/-- Structural equality test for `Val` (Python `==` on the payloads). -/
def Val.beq : Val → Val → Bool
  | .null, .null => true
  | .bool a, .bool b => a == b
  | .int a, .int b => a == b
  | .str a, .str b => a == b
  | .arr xs, .arr ys => Val.beqList xs ys
  | .obj xs, .obj ys => Val.beqEntries xs ys
  | _, _ => false

/-- Elementwise equality of value lists. -/
def Val.beqList : List Val → List Val → Bool
  | [], [] => true
  | x :: xs, y :: ys => Val.beq x y && Val.beqList xs ys
  | _, _ => false

/-- Elementwise equality of entry lists. -/
def Val.beqEntries : List (String × Val) → List (String × Val) → Bool
  | [], [] => true
  | (k, v) :: xs, (k', v') :: ys => k == k' && Val.beq v v' && Val.beqEntries xs ys
  | _, _ => false

end

mutual

theorem Val.beq_iff : ∀ a b : Val, Val.beq a b = true ↔ a = b
  | .null, b => by cases b <;> simp [Val.beq]
  | .bool x, b => by cases b <;> simp [Val.beq]
  | .int x, b => by cases b <;> simp [Val.beq]
  | .str x, b => by cases b <;> simp [Val.beq]
  | .arr xs, b => by
      cases b <;> simp [Val.beq]
      exact Val.beqList_iff xs _
  | .obj xs, b => by
      cases b <;> simp [Val.beq]
      exact Val.beqEntries_iff xs _

theorem Val.beqList_iff : ∀ xs ys : List Val, Val.beqList xs ys = true ↔ xs = ys
  | [], ys => by cases ys <;> simp [Val.beqList]
  | x :: xs, ys => by
      cases ys with
      | nil => simp [Val.beqList]
      | cons y ys =>
          simp [Val.beqList, Val.beq_iff x y, Val.beqList_iff xs ys]

theorem Val.beqEntries_iff :
    ∀ xs ys : List (String × Val), Val.beqEntries xs ys = true ↔ xs = ys
  | [], ys => by cases ys <;> simp [Val.beqEntries]
  | (k, v) :: xs, ys => by
      cases ys with
      | nil => simp [Val.beqEntries]
      | cons y ys =>
          obtain ⟨k', v'⟩ := y
          simp [Val.beqEntries, Val.beq_iff v v', Val.beqEntries_iff xs ys,
            Prod.ext_iff, and_assoc]

end

instance : DecidableEq Val := fun a b =>
  decidable_of_iff (Val.beq a b = true) (Val.beq_iff a b)

/-! ## Sorting object entries by key (`json.dumps(..., sort_keys=True)`) -/

/-- Order on object entries: compare keys (Python sorts dict items by key). -/
def keyLE (p q : String × Val) : Prop := p.1 ≤ q.1

/-- Strict version of `keyLE`, used to identify sorted entry lists uniquely. -/
def keyLT (p q : String × Val) : Prop := p.1 < q.1

instance : DecidableRel keyLE := fun p q => inferInstanceAs (Decidable (p.1 ≤ q.1))

instance : IsTotal (String × Val) keyLE := ⟨fun p q => le_total p.1 q.1⟩

instance : IsTrans (String × Val) keyLE := ⟨fun _ _ _ h1 h2 => le_trans h1 h2⟩

instance : IsAntisymm (String × Val) keyLT :=
  ⟨fun _ _ h1 h2 => absurd (lt_trans h1 h2) (lt_irrefl _)⟩

/-- Sort an object's entries by key, as `sort_keys=True` does. -/
def sortPairs (l : List (String × Val)) : List (String × Val) :=
  List.insertionSort keyLE l

theorem sortPairs_perm (l : List (String × Val)) : List.Perm (sortPairs l) l :=
  List.perm_insertionSort keyLE l

theorem sortPairs_sorted (l : List (String × Val)) : List.Sorted keyLE (sortPairs l) :=
  List.sorted_insertionSort keyLE l

theorem sortPairs_keys (l : List (String × Val)) :
    List.Perm ((sortPairs l).map Prod.fst) (l.map Prod.fst) :=
  (sortPairs_perm l).map Prod.fst

theorem pairwise_keyLT_of_nodup {l : List (String × Val)}
    (hs : List.Pairwise keyLE l) (hn : (l.map Prod.fst).Nodup) :
    List.Pairwise keyLT l := by
  have hne : l.Pairwise (fun p q : String × Val => p.1 ≠ q.1) :=
    (List.pairwise_map.mp hn)
  exact (hs.and hne).imp fun h => lt_of_le_of_ne h.1 h.2

/-- Two entry lists that are permutations of each other with duplicate-free
keys sort to the same list. -/
theorem sortPairs_eq_of_perm {l₁ l₂ : List (String × Val)} (hp : List.Perm l₁ l₂)
    (hn : (l₁.map Prod.fst).Nodup) : sortPairs l₁ = sortPairs l₂ := by
  have hperm : List.Perm (sortPairs l₁) (sortPairs l₂) :=
    ((sortPairs_perm l₁).trans hp).trans (sortPairs_perm l₂).symm
  have hn₁ : ((sortPairs l₁).map Prod.fst).Nodup :=
    (sortPairs_keys l₁).nodup_iff.mpr hn
  have hn₂ : ((sortPairs l₂).map Prod.fst).Nodup :=
    ((sortPairs_keys l₂).nodup_iff).mpr (hp.map Prod.fst |>.nodup_iff.mp hn)
  exact List.eq_of_perm_of_sorted hperm
    (pairwise_keyLT_of_nodup (sortPairs_sorted l₁) hn₁)
    (pairwise_keyLT_of_nodup (sortPairs_sorted l₂) hn₂)

/-! ## Canonicalization: recursively sort every object's keys

`json.dumps(data, sort_keys=True, separators=(',', ':'))` serializes each
dict with its items sorted by key.  We factor that as: first recursively
sort all object entry lists (`sortVal`), then serialize in order
(`dumpVal`). -/

mutual

/-- Recursively sort all object entries by key (arrays keep their order). -/
def sortVal : Val → Val
  | .null => .null
  | .bool b => .bool b
  | .int n => .int n
  | .str s => .str s
  | .arr xs => .arr (sortValList xs)
  | .obj kvs => .obj (sortPairs (sortEntriesVals kvs))

/-- `sortVal` mapped over an array's elements. -/
def sortValList : List Val → List Val
  | [] => []
  | x :: xs => sortVal x :: sortValList xs

/-- `sortVal` mapped over an object's values (keys unchanged). -/
def sortEntriesVals : List (String × Val) → List (String × Val)
  | [] => []
  | (k, v) :: xs => (k, sortVal v) :: sortEntriesVals xs

end

theorem sortValList_eq_map (xs : List Val) : sortValList xs = xs.map sortVal := by
  induction xs with
  | nil => rfl
  | cons x xs ih => simp [sortValList, ih]

theorem sortEntriesVals_eq_map (xs : List (String × Val)) :
    sortEntriesVals xs = xs.map fun p => (p.1, sortVal p.2) := by
  induction xs with
  | nil => rfl
  | cons x xs ih => obtain ⟨k, v⟩ := x; simp [sortEntriesVals, ih]

theorem sortEntriesVals_keys (xs : List (String × Val)) :
    (sortEntriesVals xs).map Prod.fst = xs.map Prod.fst := by
  induction xs with
  | nil => rfl
  | cons x xs ih => obtain ⟨k, v⟩ := x; simp [sortEntriesVals, ih]

/-! ## Serialization (`json.dumps` with `separators=(',', ':')`) -/

/-- One hexadecimal digit (lowercase), for `\uXXXX` escapes and digests. -/
def hexDigit (n : Nat) : Char :=
  if n < 10 then Char.ofNat (48 + n) else Char.ofNat (87 + n)

/-- Four-digit lowercase hex rendering of a code unit, as in `\uXXXX`. -/
def hex4 (n : Nat) : String :=
  String.mk [hexDigit (n / 4096 % 16), hexDigit (n / 256 % 16),
    hexDigit (n / 16 % 16), hexDigit (n % 16)]

/-- Escape one character the way CPython's `json.dumps` (with the default
`ensure_ascii=True`) does: the named short escapes, `\u00XX` for other
control characters, printable ASCII verbatim, and `\uXXXX` (with surrogate
pairs above U+FFFF) for everything non-ASCII. -/
def escapeChar (c : Char) : String :=
  let n := c.toNat
  if c = '"' then "\\\""
  else if c = '\\' then "\\\\"
  else if c = '\n' then "\\n"
  else if c = '\r' then "\\r"
  else if c = '\t' then "\\t"
  else if n = 8 then "\\b"
  else if n = 12 then "\\f"
  else if n < 32 then "\\u" ++ hex4 n
  else if n < 127 then String.mk [c]
  else if n < 65536 then "\\u" ++ hex4 n
  else
    let m := n - 65536
    "\\u" ++ hex4 (55296 + m / 1024) ++ "\\u" ++ hex4 (56320 + m % 1024)

/-- A JSON string literal for `s`: quotes around the escaped characters. -/
def pyQuote (s : String) : String :=
  "\"" ++ String.join (s.data.map escapeChar) ++ "\""

mutual

/-- Serialize a value with separators `(',', ':')` and no added whitespace,
in entry order (`sortVal` has already put entries in sorted order). -/
def dumpVal : Val → String
  | .null => "null"
  | .bool b => if b then "true" else "false"
  | .int n => toString n
  | .str s => pyQuote s
  | .arr xs => "[" ++ dumpList xs ++ "]"
  | .obj kvs => "\x7b" ++ dumpEntries kvs ++ "\x7d"

/-- Comma-joined serialization of array elements. -/
def dumpList : List Val → String
  | [] => ""
  | [x] => dumpVal x
  | x :: y :: xs => dumpVal x ++ "," ++ dumpList (y :: xs)

/-- Comma-joined `"key":value` serialization of object entries. -/
def dumpEntries : List (String × Val) → String
  | [] => ""
  | [(k, v)] => pyQuote k ++ ":" ++ dumpVal v
  | (k, v) :: e :: xs => pyQuote k ++ ":" ++ dumpVal v ++ "," ++ dumpEntries (e :: xs)

end

/-! ## UTF-8 encoding and SHA-256 (`hashlib.sha256(...).hexdigest()`)

A concrete implementation over `List Nat` bytes.  No theorem in this file
evaluates a digest; the hash is used as a function, through congruence. -/

/-- UTF-8 bytes of a single character (code point). -/
def charUtf8 (c : Char) : List Nat :=
  let n := c.toNat
  if n < 128 then [n]
  else if n < 2048 then [192 + n / 64, 128 + n % 64]
  else if n < 65536 then [224 + n / 4096, 128 + n / 64 % 64, 128 + n % 64]
  else [240 + n / 262144, 128 + n / 4096 % 64, 128 + n / 64 % 64, 128 + n % 64]

/-- UTF-8 bytes of a string (`s.encode('utf-8')`). -/
def utf8Bytes (s : String) : List Nat :=
  (s.data.map charUtf8).flatten

/-- 32-bit truncation. -/
def w32 (n : Nat) : Nat := n % 4294967296

/-- Right rotation of a 32-bit word by `r` bits. -/
def rotr (r x : Nat) : Nat :=
  w32 (x / 2 ^ r + x * 2 ^ (32 - r))

/-- Right shift of a 32-bit word. -/
def shr (r x : Nat) : Nat := x / 2 ^ r

/-- Bitwise XOR (on `Nat`, both arguments already below `2^32`). -/
def bxor (a b : Nat) : Nat := Nat.xor a b

/-- The SHA-256 round constants. -/
def sha256K : List Nat :=
  [116352408, 1899447441, 3049323471, 3921009573, 961987163,
   1508970993, 2453635748, 2870763221, 3624381080, 310598401,
   607225278, 1426881987, 1925078388, 2162078206, 2614888103,
   3248222580, 3835390401, 4022224774, 264347078, 604807628,
   770255983, 1249150122, 1555081692, 1996064986, 2554220882,
   2821834349, 2952996808, 3210313671, 3336571891, 3584528711,
   113926993, 338241895, 666307205, 773529912, 1294757372,
   1396182291, 1695183700, 1986661051, 2177026350, 2456956037,
   2730485921, 2820302411, 3259730800, 3345764771, 3516065817,
   3600352804, 4094571909, 275423344, 430227734, 506948616,
   659060556, 883997877, 958139571, 1322822218, 1537002063,
   1747873779, 1955562222, 2024104815, 2227730452, 2361852424,
   2428436474, 2756734187, 3204031479, 3329325298]

/-- The SHA-256 initial hash state. -/
def sha256H0 : List Nat :=
  [779033703, 3144134277, 1013904242, 2773480762,
   1359893119, 2600822924, 528734635, 1541459225]

/-- Message padding: `0x80`, zeros to 56 mod 64, then the bit length as
eight big-endian bytes. -/
def sha256Pad (msg : List Nat) : List Nat :=
  let len := msg.length
  let zeros := (119 - len % 64) % 64
  let bitLen := 8 * len
  msg ++ 0x80 :: List.replicate zeros 0 ++
    [bitLen / 2 ^ 56 % 256, bitLen / 2 ^ 48 % 256, bitLen / 2 ^ 40 % 256,
     bitLen / 2 ^ 32 % 256, bitLen / 2 ^ 24 % 256, bitLen / 2 ^ 16 % 256,
     bitLen / 2 ^ 8 % 256, bitLen % 256]

/-- Combine four bytes into one big-endian 32-bit word. -/
def beWord : List Nat → Nat
  | [a, b, c, d] => ((a * 256 + b) * 256 + c) * 256 + d
  | _ => 0

/-- Split a 64-byte block into sixteen 32-bit words. -/
def blockWords (block : List Nat) : List Nat :=
  (List.range 16).map fun i => beWord (block.drop (4 * i) |>.take 4)

/-- One message-schedule extension step: append word `n` computed from
words `n-2`, `n-7`, `n-15`, `n-16`. -/
def scheduleStep (acc : List Nat) : List Nat :=
  let n := acc.length
  let g := fun i => acc.getD (n - i) 0
  let s0 := bxor (bxor (rotr 7 (g 15)) (rotr 18 (g 15))) (shr 3 (g 15))
  let s1 := bxor (bxor (rotr 17 (g 2)) (rotr 19 (g 2))) (shr 10 (g 2))
  acc ++ [w32 (g 16 + s0 + g 7 + s1)]

/-- Extend sixteen words to the 64-word message schedule. -/
def sha256Schedule (ws : List Nat) : List Nat :=
  (List.range 48).foldl (fun acc _ => scheduleStep acc) ws

/-- One compression round; the state is the eight working variables. -/
def compressStep (st : List Nat) (kw : Nat × Nat) : List Nat :=
  match st with
  | [a, b, c, d, e, f, g, h] =>
    let S1 := bxor (bxor (rotr 6 e) (rotr 11 e)) (rotr 25 e)
    let ch := bxor (Nat.land e f) (Nat.land (4294967295 - e) g)
    let t1 := w32 (h + S1 + ch + kw.1 + kw.2)
    let S0 := bxor (bxor (rotr 2 a) (rotr 13 a)) (rotr 22 a)
    let mj := bxor (bxor (Nat.land a b) (Nat.land a c)) (Nat.land b c)
    let t2 := w32 (S0 + mj)
    [w32 (t1 + t2), a, b, c, w32 (d + t1), e, f, g]
  | st => st

/-- Compress one 64-byte block into the running hash state. -/
def sha256Compress (h : List Nat) (block : List Nat) : List Nat :=
  let ws := sha256Schedule (blockWords block)
  let st := (sha256K.zip ws).foldl compressStep h
  List.zipWith (fun x y => w32 (x + y)) h st

/-- Fold the compression function over all 64-byte blocks. -/
def sha256Blocks (h : List Nat) : List Nat → List Nat
  | [] => h
  | b :: rest => sha256Blocks (sha256Compress h ((b :: rest).take 64)) ((b :: rest).drop 64)
  termination_by l => l.length
  decreasing_by simp; omega

/-- Eight-digit lowercase hex rendering of a 32-bit word. -/
def hex8 (n : Nat) : String :=
  String.mk [hexDigit (n / 2 ^ 28 % 16), hexDigit (n / 2 ^ 24 % 16),
    hexDigit (n / 2 ^ 20 % 16), hexDigit (n / 2 ^ 16 % 16),
    hexDigit (n / 2 ^ 12 % 16), hexDigit (n / 2 ^ 8 % 16),
    hexDigit (n / 2 ^ 4 % 16), hexDigit (n % 16)]

/-- `hashlib.sha256(bytes).hexdigest()`: 64 lowercase hex characters. -/
def sha256Hex (msg : List Nat) : String :=
  String.join ((sha256Blocks sha256H0 (sha256Pad msg)).map hex8)

/-! ## Errors (`exceptions.py`, plus Python's built-in `ValueError`) -/

/-- The exceptions the embedded core can raise.  Constructors mirror the
exception classes of `exceptions.py`; `valueError` stands for Python's
built-in `ValueError`, which `vault_manager.py` and `truth_state.py`
raise directly. -/
inductive Err where
  | configFileNotFound (path : String)
  | checksumComputation (msg : String)
  | duplicateEntry (entryId : Val) (collection : String)
  | invalidDataFormat (msg : String)
  | valueError (msg : String)
  deriving DecidableEq

/-! ## `checksum.py` -/

/-- A file system: association of path to byte contents.  `Path.exists`
is a successful lookup. -/
abbrev Fs : Type := List (String × List Nat)

/-- `Path(p).exists()` over the modelled file system. -/
def pathExists (fs : Fs) (p : String) : Bool :=
  (List.lookup p fs).isSome

/-- `compute_file_checksum(path)`: SHA-256 of the file's bytes, or
`ConfigFileNotFoundError` when the path does not exist.  (The chunked
read accumulates exactly the file's bytes; the model hashes them in one
piece, which is the same digest.) -/
def compute_file_checksum (fs : Fs) (path : String) : Except Err String :=
  match List.lookup path fs with
  | none => .error (.configFileNotFound path)
  | some bytes => .ok (sha256Hex bytes)

/-- `compute_state_checksum(data)`: SHA-256 of the canonical JSON
serialization (keys recursively sorted, separators `(',', ':')`). -/
def compute_state_checksum (data : List (String × Val)) : String :=
  sha256Hex (utf8Bytes (dumpVal (sortVal (.obj data))))

/-- `compute_text_checksum(text)`: SHA-256 of the text's UTF-8 bytes,
with no canonicalization. -/
def compute_text_checksum (text : String) : String :=
  sha256Hex (utf8Bytes text)

/-- The runtime shapes `verify_checksum` can receive: a `str`, a
`pathlib.Path`, a `dict`, or anything else (`other` carries the type
name used in the error message). -/
inductive PyData where
  | str (s : String)
  | path (p : String)
  | dict (d : List (String × Val))
  | other (typeName : String)
  deriving DecidableEq

/-- The Python type name of a `PyData` value, for error messages. -/
def PyData.typeOf : PyData → String
  | .str _ => "str"
  | .path _ => "PosixPath"
  | .dict _ => "dict"
  | .other t => t

/-- The compute function `verify_checksum`'s `if/elif` chain selects. -/
inductive VerifyBranch where
  | file
  | state
  | text
  | unsupported
  deriving DecidableEq

/-- Which branch of `verify_checksum`'s dispatch runs for a given value:
a `str` or `Path` naming an existing file is treated as a file; a `dict`
as state; any other `str` as text; everything else (including a `Path`
that does not exist) is unsupported. -/
def verifyBranch (fs : Fs) (data : PyData) : VerifyBranch :=
  match data with
  | .str s => if pathExists fs s then .file else .text
  | .path p => if pathExists fs p then .file else .unsupported
  | .dict _ => .state
  | .other _ => .unsupported

/-- `verify_checksum(data, expected_checksum)`: shape-based dispatch to a
compute function, then a case-insensitive comparison
(`actual.lower() == expected_checksum.lower()`). -/
def verify_checksum (fs : Fs) (data : PyData) (expected : String) :
    Except Err Bool := do
  let actual ← match data with
    | .str s =>
        if pathExists fs s then compute_file_checksum fs s
        else .ok (compute_text_checksum s)
    | .path p =>
        if pathExists fs p then compute_file_checksum fs p
        else .error (.checksumComputation
          ("Unsupported data type for checksum verification: " ++ PyData.typeOf (.path p)))
    | .dict d => .ok (compute_state_checksum d)
    | .other t => .error (.checksumComputation
        ("Unsupported data type for checksum verification: " ++ t))
  .ok (actual.toLower == expected.toLower)

/-! ## `vault_manager.py`: `VaultID` and `LineageChain` -/

/-- The `VaultID` dataclass.  `created_at` is `none` until stamped (the
source's `__post_init__` stamps `datetime.utcnow()`; time is passed
explicitly where a function of the model needs it). -/
structure VaultID where
  domain : String
  module : String
  version : String
  predecessor : Option String := none
  checksum : Option String := none
  created_at : Option String := none
  metadata : Option (List (String × Val)) := none
  deriving DecidableEq

/-- Python `str(x)` for an optional string, as an f-string renders it:
`None` or the bare string. -/
def optRepr : Option String → String
  | none => "None"
  | some s => s

/-- `VaultID.to_uri`: render `AMOS://{domain}/{module}/v{version}`. -/
def VaultID.to_uri (v : VaultID) : String :=
  "AMOS://" ++ v.domain ++ "/" ++ v.module ++ "/v" ++ v.version

/-- Characters before the first `/`, and the rest (`[^/]*` then the
remainder).  This is `List.span (· ≠ '/')`, written out. -/
def spanSlash : List Char → List Char × List Char
  | [] => ([], [])
  | c :: cs =>
      if c = '/' then ([], c :: cs)
      else
        let r := spanSlash cs
        (c :: r.1, r.2)

/-- Strip an expected literal prefix from a character list. -/
def dropLit : List Char → List Char → Option (List Char)
  | [], cs => some cs
  | _ :: _, [] => none
  | p :: ps, c :: cs => if c = p then dropLit ps cs else none

/-- Characters before the first newline, and the rest. -/
def spanNewline : List Char → List Char × List Char
  | [] => ([], [])
  | c :: cs =>
      if c = '\n' then ([], c :: cs)
      else
        let r := spanNewline cs
        (c :: r.1, r.2)

/-- The version group `(.+)$` of the pattern, under Python semantics:
`.` never matches a newline and `$` also matches just before one final
trailing newline.  So it accepts a non-empty newline-free prefix,
followed by nothing or by one final `'\n'`. -/
def matchVersion (cs : List Char) : Option (List Char) :=
  let p := spanNewline cs
  if p.1 = [] then none
  else if p.2 = [] ∨ p.2 = ['\n'] then some p.1
  else none

/-- The regex `^AMOS://([^/]+)/([^/]+)/v(.+)$` of `VaultID.from_uri`,
applied with `re.match`: returns the three captured groups. -/
def matchUriChars (cs : List Char) : Option (List Char × List Char × List Char) :=
  match dropLit "AMOS://".data cs with
  | none => none
  | some rest =>
      let pd := spanSlash rest
      match pd.2 with
      | '/' :: rest2 =>
          let pm := spanSlash rest2
          match pm.2 with
          | '/' :: 'v' :: rest3 =>
              if pd.1 = [] ∨ pm.1 = [] then none
              else
                match matchVersion rest3 with
                | none => none
                | some ver => some (pd.1, pm.1, ver)
          | _ => none
      | _ => none

/-- `VaultID.from_uri(uri)`: parse by the fixed pattern or raise
`ValueError`.  `now` is the creation timestamp `__post_init__` stamps on
the freshly constructed record. -/
def VaultID.from_uri (now : String) (uri : String) : Except Err VaultID :=
  match matchUriChars uri.data with
  | none => .error (.valueError ("Invalid VaultID URI format: " ++ uri))
  | some (d, m, ver) =>
      .ok { domain := String.mk d, module := String.mk m, version := String.mk ver,
            created_at := some now }

/-- The `LineageChain` dataclass. -/
structure LineageChain where
  chain_id : String
  vault_ids : List VaultID := []
  created_at : Option String := none
  metadata : Option (List (String × Val)) := none
  deriving DecidableEq

/-- `LineageChain.append(vault_id)`: when the chain is non-empty, require
`vault_id.predecessor == last.to_uri()`, else raise `ValueError`; then
append. -/
def LineageChain.append (c : LineageChain) (v : VaultID) : Except Err LineageChain :=
  match c.vault_ids.getLast? with
  | none => .ok { c with vault_ids := c.vault_ids ++ [v] }
  | some last =>
      if v.predecessor = some last.to_uri then
        .ok { c with vault_ids := c.vault_ids ++ [v] }
      else
        .error (.valueError ("Lineage break: Expected predecessor " ++ last.to_uri
          ++ ", got " ++ optRepr v.predecessor))

/-- The loop body of `verify_integrity`: every element after the first
must name its immediate predecessor's URI. -/
def chainOk : List VaultID → Bool
  | [] => true
  | [_] => true
  | a :: b :: rest => (b.predecessor == some a.to_uri) && chainOk (b :: rest)

/-- `LineageChain.verify_integrity()`. -/
def LineageChain.verify_integrity (c : LineageChain) : Bool :=
  chainOk c.vault_ids

/-- A chain built solely by successful `append` calls: fold `append`
over a list of records, failing fast as the source would. -/
def buildChain (c : LineageChain) : List VaultID → Except Err LineageChain
  | [] => .ok c
  | v :: vs => do buildChain (← c.append v) vs

/-! ## `truth_state.py`: `TruthAssertion` and `TruthStateEnforcer` -/

/-- Truth-state classification tags. -/
inductive TruthTag where
  | FACT
  | ESTIMATE
  | UNKNOWN
  | DRIFT
  deriving DecidableEq

/-- The serialized tag string (`tag.value`). -/
def TruthTag.value : TruthTag → String
  | .FACT => "FACT"
  | .ESTIMATE => "ESTIMATE"
  | .UNKNOWN => "UNKNOWN"
  | .DRIFT => "DRIFT"

/-- The `TruthAssertion` dataclass fields (before `__post_init__`
validation; use `TruthAssertion.validated` to model construction). -/
structure TruthAssertion where
  statement : String
  tag : TruthTag
  source : Option String := none
  confidence : Option ℚ := none
  verified_at : Option String := none
  checksum : Option String := none
  metadata : Option (List (String × Val)) := none
  deriving DecidableEq

/-- Python truthiness of an optional string: `None` and `""` are falsy,
so `not self.source` holds exactly on those. -/
def sourceFalsy : Option String → Bool
  | none => true
  | some s => s.isEmpty

/-- The `__post_init__` checks, in source order: the message of the first
`ValueError` raised, or `none` when construction succeeds. -/
def TruthAssertion.postInitError (a : TruthAssertion) : Option String :=
  if a.tag = .FACT ∧ sourceFalsy a.source then
    some "FACT assertions must include source"
  else if a.tag = .ESTIMATE ∧ a.confidence = none then
    some "ESTIMATE assertions must include confidence"
  else if a.tag = .ESTIMATE ∧ ¬ (∃ c, a.confidence = some c ∧ 0 ≤ c ∧ c ≤ 1) then
    some "Confidence must be between 0.0 and 1.0"
  else
    none

instance (a : TruthAssertion) :
    Decidable (∃ c, a.confidence = some c ∧ 0 ≤ c ∧ c ≤ 1) := by
  cases h : a.confidence with
  | none => exact .isFalse (by simp [h])
  | some c => exact decidable_of_iff (0 ≤ c ∧ c ≤ 1) (by simp [h])

/-- Constructing a `TruthAssertion`: run `__post_init__`, raising
`ValueError` on a violated tag rule. -/
def TruthAssertion.validated (a : TruthAssertion) : Except Err TruthAssertion :=
  match a.postInitError with
  | some msg => .error (.valueError msg)
  | none => .ok a

/-- The value types appearing in `TruthAssertion.to_dict`. -/
inductive TDVal where
  | s (v : String)
  | os (v : Option String)
  | oq (v : Option ℚ)
  | om (v : Option (List (String × Val)))
  deriving DecidableEq

/-- `TruthAssertion.to_dict()`: the serialized key/value pairs, in source
order. -/
def TruthAssertion.to_dict (a : TruthAssertion) : List (String × TDVal) :=
  [("statement", .s a.statement),
   ("tag", .s a.tag.value),
   ("source", .os a.source),
   ("confidence", .oq a.confidence),
   ("verified_at", .os a.verified_at),
   ("checksum", .os a.checksum),
   ("metadata", .om a.metadata)]

/-- One entry of the enforcer's `drift_log` (a dict in the source). -/
structure DriftEntry where
  detected_at : String
  source : String
  expected_checksum : String
  actual_checksum : String
  context : Option String
  deriving DecidableEq

/-- The `TruthStateEnforcer`'s two append-only logs. -/
structure TruthStateEnforcer where
  assertions : List TruthAssertion := []
  drift_log : List DriftEntry := []
  deriving DecidableEq

/-- `Val` rendering of an optional string (for `metadata` payloads). -/
def optStrVal : Option String → Val
  | none => .null
  | some s => .str s

/-- `assert_unknown(statement, reason, metadata)`: construct an
`UNKNOWN` assertion whose `source` is the `reason` argument, append it,
and return it.  `now` is the `verified_at` timestamp. -/
def TruthStateEnforcer.assert_unknown (e : TruthStateEnforcer) (now : String)
    (statement : String) (reason : Option String := none)
    (metadata : Option (List (String × Val)) := none) :
    Except Err (TruthAssertion × TruthStateEnforcer) := do
  let a ← TruthAssertion.validated
    { statement := statement, tag := .UNKNOWN, source := reason,
      verified_at := some now, metadata := metadata }
  .ok (a, { e with assertions := e.assertions ++ [a] })

/-- The `DRIFT` assertion `detect_drift` records on a mismatch. -/
def driftAssertion (now source expected actual : String)
    (context : Option String) : TruthAssertion :=
  { statement := "Drift detected in " ++ source,
    tag := .DRIFT,
    source := some source,
    verified_at := some now,
    metadata := some [("expected_checksum", .str expected),
                      ("actual_checksum", .str actual),
                      ("context", optStrVal context)] }

/-- `detect_drift(expected_checksum, actual_checksum, source, context)`:
on a mismatch, append one drift-log entry and one `DRIFT` assertion and
return `True`; on a match return `False` with no change. -/
def TruthStateEnforcer.detect_drift (e : TruthStateEnforcer) (now : String)
    (expected_checksum actual_checksum source : String)
    (context : Option String := none) :
    Except Err (Bool × TruthStateEnforcer) := do
  if expected_checksum ≠ actual_checksum then
    let entry : DriftEntry :=
      { detected_at := now, source := source,
        expected_checksum := expected_checksum,
        actual_checksum := actual_checksum, context := context }
    let a ← TruthAssertion.validated
      (driftAssertion now source expected_checksum actual_checksum context)
    .ok (true, { e with
      drift_log := e.drift_log ++ [entry],
      assertions := e.assertions ++ [a] })
  else
    .ok (false, e)

/-- `get_assertions_by_tag(tag)`. -/
def TruthStateEnforcer.get_assertions_by_tag (e : TruthStateEnforcer)
    (tag : TruthTag) : List TruthAssertion :=
  e.assertions.filter fun a => a.tag = tag

/-! ## `storage.py`: `JSONFileStorage`

One collection is one persisted JSON document: an insertion-ordered
mapping of record id to record.  Each operation loads the collection,
mutates it, and saves it; the model passes the loaded document in and the
saved document out. -/

/-- A stored record: a JSON object (field name ↦ value). -/
abbrev StoredRecord : Type := List (String × Val)

/-- A collection document: record id ↦ record, in insertion order.  Ids
are whatever value the record's identity field held, as in the source. -/
abbrev CollectionData : Type := List (Val × StoredRecord)

/-- Python `record[field]` / `field in record` on a JSON object. -/
def getField (r : StoredRecord) (field : String) : Option Val :=
  match r with
  | [] => none
  | (k, v) :: rest => if k = field then some v else getField rest field

/-- Python `data.get(record_id)` on a collection document. -/
def getRecord (data : CollectionData) (recordId : Val) : Option StoredRecord :=
  match data with
  | [] => none
  | (k, r) :: rest => if k = recordId then some r else getRecord rest recordId

/-- The collection-specific identity field (`id_field_map` with default
`"id"`). -/
def idFieldFor (collection : String) : String :=
  if collection = "identities" then "identity_id"
  else if collection = "sessions" then "session_id"
  else if collection = "memories" then "memory_id"
  else if collection = "agent_dna" then "agent_dna_id"
  else "id"

/-- `JSONFileStorage.create(collection, record)`: require the identity
field, reject duplicate ids, then store the record under its id and
return the id together with the saved document. -/
def JSONFileStorage.create (collection : String) (record : StoredRecord)
    (data : CollectionData) : Except Err (Val × CollectionData) :=
  let idField := idFieldFor collection
  match getField record idField with
  | none => .error (.invalidDataFormat
      ("Record must contain '" ++ idField ++ "' field"))
  | some recordId =>
      if (getRecord data recordId).isSome then
        .error (.duplicateEntry recordId collection)
      else
        .ok (recordId, data ++ [(recordId, record)])

/-- `JSONFileStorage.read(collection, record_id)`: `data.get(record_id)`;
absence is a normal `None` return. -/
def JSONFileStorage.read (data : CollectionData) (recordId : Val) :
    Option StoredRecord :=
  getRecord data recordId

/-! ## Helper lemmas -/

theorem getRecord_append_fresh (data : CollectionData) (recordId : Val)
    (r : StoredRecord) (h : getRecord data recordId = none) :
    getRecord (data ++ [(recordId, r)]) recordId = some r := by
  induction data with
  | nil => simp [getRecord]
  | cons p rest ih =>
      obtain ⟨k, v⟩ := p
      by_cases hk : k = recordId
      · simp [getRecord, hk] at h
      · simp [getRecord, hk] at h ⊢
        exact ih h

theorem except_bind_ok {α β : Type} (a : α) (f : α → Except Err β) :
    (do let x ← Except.ok a; f x) = f a := rfl

theorem except_bind_error {α β : Type} (e : Err) (f : α → Except Err β) :
    (do let x ← Except.error e; f x) = Except.error e := rfl

/-! ## Claim theorems -/

/-- C2.  `detect_drift(x, x, source)` returns `False` and leaves both logs
unchanged; `detect_drift(x, y, source, context)` with `x ≠ y` returns
`True` and appends exactly one drift-log entry and exactly one
`DRIFT`-tagged assertion, each carrying the expected checksum, the actual
checksum and the context. -/
theorem detect_drift_spec (now x y source : String) (context : Option String)
    (e : TruthStateEnforcer) :
    e.detect_drift now x x source context = .ok (false, e) ∧
    (x ≠ y →
      e.detect_drift now x y source context =
        .ok (true,
          { assertions := e.assertions ++
              [{ statement := "Drift detected in " ++ source,
                 tag := .DRIFT,
                 source := some source,
                 verified_at := some now,
                 metadata := some [("expected_checksum", .str x),
                                   ("actual_checksum", .str y),
                                   ("context", optStrVal context)] }],
            drift_log := e.drift_log ++
              [{ detected_at := now, source := source,
                 expected_checksum := x, actual_checksum := y,
                 context := context }] })) := by
  constructor
  · simp [TruthStateEnforcer.detect_drift]
  · intro hxy
    simp [TruthStateEnforcer.detect_drift, TruthAssertion.validated,
      TruthAssertion.postInitError, driftAssertion, sourceFalsy, hxy,
      except_bind_ok]

/-- Witness for C2 at a concrete mismatching pair. -/
theorem detect_drift_spec_witness :
    TruthStateEnforcer.detect_drift {} "t0" "aa" "bb" "src" (some "ctx") =
      .ok (true,
        { assertions :=
            [{ statement := "Drift detected in src",
               tag := .DRIFT,
               source := some "src",
               verified_at := some "t0",
               metadata := some [("expected_checksum", .str "aa"),
                                 ("actual_checksum", .str "bb"),
                                 ("context", .str "ctx")] }],
          drift_log :=
            [{ detected_at := "t0", source := "src",
               expected_checksum := "aa", actual_checksum := "bb",
               context := some "ctx" }] }) := by
  have h := (detect_drift_spec "t0" "aa" "bb" "src" (some "ctx") {}).2 (by decide)
  simpa [optStrVal] using h

/-- C3.  On a non-empty chain, `append` succeeds exactly when the new
record's `predecessor` equals the URI of the chain's last element; when it
does not, `append` raises `ValueError` ("Lineage break") and produces no
updated chain. -/
theorem lineage_append_spec (c : LineageChain) (r last : VaultID)
    (hlast : c.vault_ids.getLast? = some last) :
    ((∃ c', c.append r = .ok c') ↔ r.predecessor = some last.to_uri) ∧
    (r.predecessor = some last.to_uri →
      c.append r = .ok { c with vault_ids := c.vault_ids ++ [r] }) ∧
    (r.predecessor ≠ some last.to_uri →
      c.append r = .error (.valueError
        ("Lineage break: Expected predecessor " ++ last.to_uri ++ ", got "
          ++ optRepr r.predecessor))) := by
  have hok : r.predecessor = some last.to_uri →
      c.append r = .ok { c with vault_ids := c.vault_ids ++ [r] } := by
    intro h
    simp [LineageChain.append, hlast, h]
  have herr : r.predecessor ≠ some last.to_uri →
      c.append r = .error (.valueError
        ("Lineage break: Expected predecessor " ++ last.to_uri ++ ", got "
          ++ optRepr r.predecessor)) := by
    intro h
    simp [LineageChain.append, hlast, h]
  refine ⟨⟨?_, fun h => ⟨_, hok h⟩⟩, hok, herr⟩
  intro hex
  obtain ⟨c', hc'⟩ := hex
  by_contra hne
  rw [herr hne] at hc'
  cases hc'

/-- Witness for C3: a correct append and a lineage break on a concrete
two-record chain. -/
theorem lineage_append_spec_witness :
    (LineageChain.append
        { chain_id := "d/m",
          vault_ids := [{ domain := "d", module := "m", version := "1" }] }
        { domain := "d", module := "m", version := "2",
          predecessor := some "AMOS://d/m/v1" } =
      .ok { chain_id := "d/m",
            vault_ids := [{ domain := "d", module := "m", version := "1" },
                          { domain := "d", module := "m", version := "2",
                            predecessor := some "AMOS://d/m/v1" }] }) ∧
    (LineageChain.append
        { chain_id := "d/m",
          vault_ids := [{ domain := "d", module := "m", version := "1" }] }
        { domain := "d", module := "m", version := "3",
          predecessor := some "AMOS://other/m/v9" } =
      .error (.valueError
        "Lineage break: Expected predecessor AMOS://d/m/v1, got AMOS://other/m/v9")) := by
  constructor
  · exact (lineage_append_spec
      { chain_id := "d/m",
        vault_ids := [{ domain := "d", module := "m", version := "1" }] }
      { domain := "d", module := "m", version := "2",
        predecessor := some "AMOS://d/m/v1" }
      { domain := "d", module := "m", version := "1" }
      (by decide)).2.1 (by decide)
  · have h := (lineage_append_spec
      { chain_id := "d/m",
        vault_ids := [{ domain := "d", module := "m", version := "1" }] }
      { domain := "d", module := "m", version := "3",
        predecessor := some "AMOS://other/m/v9" }
      { domain := "d", module := "m", version := "1" }
      (by decide)).2.2 (by decide)
    simpa [VaultID.to_uri, optRepr] using h

/-- C9.  Appending to an empty chain never raises, whatever the record's
`predecessor` holds (the first element's predecessor is never checked),
and the resulting one-element chain passes `verify_integrity`. -/
theorem append_empty_spec (c : LineageChain) (r : VaultID)
    (hempty : c.vault_ids = []) :
    c.append r = .ok { c with vault_ids := [r] } ∧
    LineageChain.verify_integrity { c with vault_ids := [r] } = true := by
  constructor
  · simp [LineageChain.append, hempty]
  · simp [LineageChain.verify_integrity, chainOk]

/-- Witness for C9: the appended record carries a dangling predecessor
URI that names no existing record, and the append still succeeds. -/
theorem append_empty_spec_witness :
    LineageChain.append { chain_id := "x", vault_ids := [] }
        { domain := "d", module := "m", version := "1",
          predecessor := some "AMOS://ghost/gone/v9" } =
      .ok { chain_id := "x",
            vault_ids := [{ domain := "d", module := "m", version := "1",
                            predecessor := some "AMOS://ghost/gone/v9" }] } ∧
    LineageChain.verify_integrity
        { chain_id := "x",
          vault_ids := [{ domain := "d", module := "m", version := "1",
                          predecessor := some "AMOS://ghost/gone/v9" }] } = true :=
  append_empty_spec { chain_id := "x", vault_ids := [] }
    { domain := "d", module := "m", version := "1",
      predecessor := some "AMOS://ghost/gone/v9" } (by decide)

/-- C10.  `assert_unknown(statement, reason)` stores the `reason` argument
in the constructed assertion's `source` field; the serialized form exposes
it under the `"source"` key and has no `"reason"` key of its own. -/
theorem assert_unknown_spec (e : TruthStateEnforcer) (now statement : String)
    (reason : Option String) (metadata : Option (List (String × Val))) :
    e.assert_unknown now statement reason metadata =
      .ok ({ statement := statement, tag := .UNKNOWN, source := reason,
             verified_at := some now, metadata := metadata },
           { e with assertions := e.assertions ++
               [{ statement := statement, tag := .UNKNOWN, source := reason,
                  verified_at := some now, metadata := metadata }] }) ∧
    (TruthAssertion.to_dict
        { statement := statement, tag := .UNKNOWN, source := reason,
          verified_at := some now, metadata := metadata }).map Prod.fst =
      ["statement", "tag", "source", "confidence", "verified_at", "checksum",
       "metadata"] ∧
    ("source", TDVal.os reason) ∈ TruthAssertion.to_dict
        { statement := statement, tag := .UNKNOWN, source := reason,
          verified_at := some now, metadata := metadata } ∧
    "reason" ∉ (TruthAssertion.to_dict
        { statement := statement, tag := .UNKNOWN, source := reason,
          verified_at := some now, metadata := metadata }).map Prod.fst := by
  refine ⟨?_, by simp [TruthAssertion.to_dict], by simp [TruthAssertion.to_dict],
    by simp [TruthAssertion.to_dict]⟩
  simp [TruthStateEnforcer.assert_unknown, TruthAssertion.validated,
    TruthAssertion.postInitError, sourceFalsy, except_bind_ok]

/-- C8.  `__post_init__` validation: a `FACT` assertion without a source
and an `ESTIMATE` assertion with a missing or out-of-range confidence
(e.g. `1.5`) raise `ValueError`; every assertion that constructs
successfully satisfies the per-tag field invariants. -/
theorem truth_assertion_validation_spec :
    (∀ st conf v ck md,
      TruthAssertion.validated
          { statement := st, tag := .FACT, source := none, confidence := conf,
            verified_at := v, checksum := ck, metadata := md } =
        .error (.valueError "FACT assertions must include source")) ∧
    (∀ st src v ck md,
      TruthAssertion.validated
          { statement := st, tag := .ESTIMATE, source := src, confidence := none,
            verified_at := v, checksum := ck, metadata := md } =
        .error (.valueError "ESTIMATE assertions must include confidence")) ∧
    (∀ st src v ck md (q : ℚ), ¬ (0 ≤ q ∧ q ≤ 1) →
      TruthAssertion.validated
          { statement := st, tag := .ESTIMATE, source := src, confidence := some q,
            verified_at := v, checksum := ck, metadata := md } =
        .error (.valueError "Confidence must be between 0.0 and 1.0")) ∧
    (∀ a b, TruthAssertion.validated a = .ok b →
      b = a ∧
      (a.tag = .FACT → a.source ≠ none) ∧
      (a.tag = .ESTIMATE → ∃ c, a.confidence = some c ∧ 0 ≤ c ∧ c ≤ 1)) := by
  refine ⟨?_, ?_, ?_, ?_⟩
  · intro st conf v ck md
    simp [TruthAssertion.validated, TruthAssertion.postInitError, sourceFalsy]
  · intro st src v ck md
    simp [TruthAssertion.validated, TruthAssertion.postInitError]
  · intro st src v ck md q hq
    simp [TruthAssertion.validated, TruthAssertion.postInitError, hq]
  · intro a b hab
    unfold TruthAssertion.validated at hab
    rcases hpe : a.postInitError with _ | msg
    · rw [hpe] at hab
      cases hab
      unfold TruthAssertion.postInitError at hpe
      refine ⟨rfl, ?_, ?_⟩
      · intro htag
        by_contra hsrc
        simp [htag, hsrc, sourceFalsy] at hpe
      · intro htag
        by_cases hconf : a.confidence = none
        · simp [htag, hconf] at hpe
        · by_cases hrange : ∃ c, a.confidence = some c ∧ 0 ≤ c ∧ c ≤ 1
          · exact hrange
          · simp [htag, hconf, hrange] at hpe
    · rw [hpe] at hab
      cases hab

/-- Witness for C8 at the spec's own input: `confidence = 1.5` (= 3/2) is
rejected. -/
theorem truth_assertion_validation_spec_witness :
    TruthAssertion.validated
        { statement := "s", tag := .ESTIMATE, source := none,
          confidence := some ((3 : ℚ) / 2) } =
      .error (.valueError "Confidence must be between 0.0 and 1.0") :=
  truth_assertion_validation_spec.2.2.1 "s" none none none none ((3 : ℚ) / 2)
    (by norm_num)

/-- C5.  `create` requires the collection's designated identity field
(`InvalidDataFormatError` when missing) and a fresh id
(`DuplicateEntryError` on collision); after a successful `create`, `read`
returns the record unchanged, and a second `create` of the same record
raises `DuplicateEntryError`. -/
theorem storage_create_read_spec (collection : String) (record : StoredRecord)
    (data : CollectionData) :
    (getField record (idFieldFor collection) = none →
      JSONFileStorage.create collection record data =
        .error (.invalidDataFormat
          ("Record must contain '" ++ idFieldFor collection ++ "' field"))) ∧
    (∀ recordId, getField record (idFieldFor collection) = some recordId →
      getRecord data recordId = none →
      JSONFileStorage.create collection record data =
        .ok (recordId, data ++ [(recordId, record)]) ∧
      JSONFileStorage.read (data ++ [(recordId, record)]) recordId = some record ∧
      JSONFileStorage.create collection record (data ++ [(recordId, record)]) =
        .error (.duplicateEntry recordId collection)) := by
  constructor
  · intro hmiss
    simp [JSONFileStorage.create, hmiss]
  · intro recordId hid hfresh
    have hfound := getRecord_append_fresh data recordId record hfresh
    refine ⟨?_, ?_, ?_⟩
    · simp [JSONFileStorage.create, hid, hfresh]
    · simp [JSONFileStorage.read, hfound]
    · simp [JSONFileStorage.create, hid, hfound]

/-- Witness for C5 on the spec's end-to-end example: an `identities`
record keyed by `identity_id`. -/
theorem storage_create_read_spec_witness :
    JSONFileStorage.create "identities" [("identity_id", .str "mdna_agt_ab12")] [] =
      .ok (.str "mdna_agt_ab12",
        [(.str "mdna_agt_ab12", [("identity_id", .str "mdna_agt_ab12")])]) ∧
    JSONFileStorage.read
        [(.str "mdna_agt_ab12", [("identity_id", .str "mdna_agt_ab12")])]
        (.str "mdna_agt_ab12") =
      some [("identity_id", .str "mdna_agt_ab12")] ∧
    JSONFileStorage.create "identities" [("identity_id", .str "mdna_agt_ab12")]
        [(.str "mdna_agt_ab12", [("identity_id", .str "mdna_agt_ab12")])] =
      .error (.duplicateEntry (.str "mdna_agt_ab12") "identities") := by
  have h := (storage_create_read_spec "identities"
      [("identity_id", .str "mdna_agt_ab12")] []).2
      (.str "mdna_agt_ab12") (by decide) (by decide)
  simpa using h

/-! ## Lineage-integrity helper lemmas -/

theorem getLast?_none_eq_nil {l : List VaultID} (h : l.getLast? = none) : l = [] := by
  cases l with
  | nil => rfl
  | cons a rest => simp [List.getLast?_eq_getLast] at h

theorem chainOk_snoc : ∀ (l : List VaultID) (v last : VaultID),
    l.getLast? = some last → chainOk l = true →
    v.predecessor = some last.to_uri → chainOk (l ++ [v]) = true
  | [], _, _ => by intro h; simp at h
  | [a], v, last => by
      intro hlast hok hpred
      simp at hlast
      subst hlast
      simp [chainOk, hpred]
  | a :: b :: rest, v, last => by
      intro hlast hok hpred
      rw [List.getLast?_cons_cons] at hlast
      simp only [chainOk, Bool.and_eq_true] at hok
      have ih := chainOk_snoc (b :: rest) v last hlast hok.2 hpred
      simp only [List.cons_append, chainOk, Bool.and_eq_true]
      exact ⟨hok.1, ih⟩

theorem append_ok_cases (c : LineageChain) (v : VaultID) (c₁ : LineageChain)
    (h : c.append v = .ok c₁) :
    c₁ = { c with vault_ids := c.vault_ids ++ [v] } ∧
    (c.vault_ids = [] ∨
      ∃ last, c.vault_ids.getLast? = some last ∧
        v.predecessor = some last.to_uri) := by
  rcases hlast : c.vault_ids.getLast? with _ | last
  · simp [LineageChain.append, hlast] at h
    exact ⟨h.symm, Or.inl (getLast?_none_eq_nil hlast)⟩
  · by_cases hpred : v.predecessor = some last.to_uri
    · simp [LineageChain.append, hlast, hpred] at h
      exact ⟨h.symm, Or.inr ⟨last, rfl, hpred⟩⟩
    · simp [LineageChain.append, hlast, hpred] at h

theorem chainOk_append_ok {c : LineageChain} {v : VaultID} {c₁ : LineageChain}
    (h : c.append v = .ok c₁) (hok : chainOk c.vault_ids = true) :
    chainOk c₁.vault_ids = true := by
  obtain ⟨rfl, hcases⟩ := append_ok_cases c v c₁ h
  rcases hcases with hempty | ⟨last, hlast, hpred⟩
  · simp [hempty, chainOk]
  · exact chainOk_snoc c.vault_ids v last hlast hok hpred

theorem buildChain_ok : ∀ (vs : List VaultID) (c c' : LineageChain),
    buildChain c vs = .ok c' → chainOk c.vault_ids = true →
    chainOk c'.vault_ids = true
  | [], c, c' => by
      intro hb hok
      cases hb
      exact hok
  | v :: vs, c, c' => by
      intro hb hok
      unfold buildChain at hb
      rcases happ : c.append v with e | c₁
      · rw [happ] at hb
        cases hb
      · rw [happ] at hb
        exact buildChain_ok vs c₁ c' hb (chainOk_append_ok happ hok)

theorem chainOk_false_at : ∀ (l : List VaultID) (i : Nat) (hi : i + 1 < l.length),
    (l.get ⟨i + 1, hi⟩).predecessor ≠
      some ((l.get ⟨i, Nat.lt_of_succ_lt hi⟩).to_uri) →
    chainOk l = false
  | [], i, hi => by intro h; simp at hi
  | [a], i, hi => by intro h; simp at hi
  | a :: b :: rest, 0, hi => by
      intro hne
      simp only [List.get] at hne
      simp [chainOk, hne]
  | a :: b :: rest, i + 1, hi => by
      intro hne
      have hi' : i + 1 < (b :: rest).length := by
        simpa using Nat.lt_of_succ_lt_succ hi
      have ih := chainOk_false_at (b :: rest) i hi' (by simpa using hne)
      simp [chainOk, ih]

/-- C4.  `verify_integrity` is `true` for every empty chain, every
singleton chain, and every chain built solely by successful `append`
calls; it is `false` for any chain in which some element after the first
has a `predecessor` different from the URI of the element immediately
before it. -/
theorem verify_integrity_spec :
    (∀ c : LineageChain, c.vault_ids = [] →
      c.verify_integrity = true) ∧
    (∀ (c : LineageChain) (r : VaultID), c.vault_ids = [r] →
      c.verify_integrity = true) ∧
    (∀ (cid : String) (ca : Option String) (md : Option (List (String × Val)))
        (vs : List VaultID) (c' : LineageChain),
      buildChain { chain_id := cid, vault_ids := [], created_at := ca,
                   metadata := md } vs = .ok c' →
      c'.verify_integrity = true) ∧
    (∀ (c : LineageChain) (i : Nat) (hi : i + 1 < c.vault_ids.length),
      (c.vault_ids.get ⟨i + 1, hi⟩).predecessor ≠
        some ((c.vault_ids.get ⟨i, Nat.lt_of_succ_lt hi⟩).to_uri) →
      c.verify_integrity = false) := by
  refine ⟨?_, ?_, ?_, ?_⟩
  · intro c h
    simp [LineageChain.verify_integrity, h, chainOk]
  · intro c r h
    simp [LineageChain.verify_integrity, h, chainOk]
  · intro cid ca md vs c' hb
    exact buildChain_ok vs _ c' hb rfl
  · intro c i hi hne
    exact chainOk_false_at c.vault_ids i hi hne

/-- Witness for C4 on concrete chains: empty, singleton, a two-record
chain built by `append`, and a two-record chain with a broken link. -/
theorem verify_integrity_spec_witness :
    LineageChain.verify_integrity { chain_id := "e", vault_ids := [] } = true ∧
    LineageChain.verify_integrity
      { chain_id := "s",
        vault_ids := [{ domain := "d", module := "m", version := "1" }] } = true ∧
    LineageChain.verify_integrity
      { chain_id := "b",
        vault_ids := [{ domain := "d", module := "m", version := "1" },
                      { domain := "d", module := "m", version := "2",
                        predecessor := some "AMOS://d/m/v1" }] } = true ∧
    LineageChain.verify_integrity
      { chain_id := "t",
        vault_ids := [{ domain := "d", module := "m", version := "1" },
                      { domain := "d", module := "m", version := "2",
                        predecessor := some "AMOS://x/y/v9" }] } = false := by
  refine ⟨verify_integrity_spec.1 _ rfl, verify_integrity_spec.2.1 _
      { domain := "d", module := "m", version := "1" } rfl, ?_, ?_⟩
  · exact verify_integrity_spec.2.2.1 "b" none none
      [{ domain := "d", module := "m", version := "1" },
       { domain := "d", module := "m", version := "2",
         predecessor := some "AMOS://d/m/v1" }]
      { chain_id := "b",
        vault_ids := [{ domain := "d", module := "m", version := "1" },
                      { domain := "d", module := "m", version := "2",
                        predecessor := some "AMOS://d/m/v1" }] }
      (by rfl)
  · exact verify_integrity_spec.2.2.2
      { chain_id := "t",
        vault_ids := [{ domain := "d", module := "m", version := "1" },
                      { domain := "d", module := "m", version := "2",
                        predecessor := some "AMOS://x/y/v9" }] }
      0 (by decide) (by decide)

/-- C1 counterexample.  `verify_checksum` takes no kind discriminator: for
the very same string value, which compute function runs flips with the
file system (it is `file` when the string names an existing file and
`text` otherwise), so no caller-chosen discriminator determines the
dispatch. -/
theorem verify_dispatch_counterexample :
    ¬ (∀ fs₁ fs₂ : Fs,
        verifyBranch fs₁ (.str "state.json") = verifyBranch fs₂ (.str "state.json")) := by
  intro h
  have hgap := h [("state.json", [])] []
  simp [verifyBranch, pathExists, List.lookup] at hgap

/-- C1 amended.  `verify_checksum` dispatches on the shape of the value
and the file system — a `str` or `Path` naming an existing file is hashed
as a file, a `dict` as canonical state, any other `str` as text, and a
non-existent `Path` or any other type fails with
`ChecksumComputationError` ("Unsupported data type") — and the digest
comparison is case-insensitive on both sides. -/
theorem verify_checksum_dispatch_spec (fs : Fs) (expected : String) :
    (∀ s bytes, List.lookup s fs = some bytes →
      verify_checksum fs (.str s) expected =
        .ok ((sha256Hex bytes).toLower == expected.toLower)) ∧
    (∀ s, List.lookup s fs = none →
      verify_checksum fs (.str s) expected =
        .ok ((compute_text_checksum s).toLower == expected.toLower)) ∧
    (∀ d, verify_checksum fs (.dict d) expected =
      .ok ((compute_state_checksum d).toLower == expected.toLower)) ∧
    (∀ p bytes, List.lookup p fs = some bytes →
      verify_checksum fs (.path p) expected =
        .ok ((sha256Hex bytes).toLower == expected.toLower)) ∧
    (∀ p, List.lookup p fs = none →
      verify_checksum fs (.path p) expected =
        .error (.checksumComputation
          "Unsupported data type for checksum verification: PosixPath")) ∧
    (∀ t, verify_checksum fs (.other t) expected =
      .error (.checksumComputation
        ("Unsupported data type for checksum verification: " ++ t))) := by
  refine ⟨?_, ?_, ?_, ?_, ?_, ?_⟩
  · intro s bytes h
    simp [verify_checksum, pathExists, compute_file_checksum, h, except_bind_ok]
  · intro s h
    simp [verify_checksum, pathExists, h, except_bind_ok]
  · intro d
    simp [verify_checksum, except_bind_ok]
  · intro p bytes h
    simp [verify_checksum, pathExists, compute_file_checksum, h, except_bind_ok]
  · intro p h
    simp [verify_checksum, pathExists, h, PyData.typeOf, except_bind_error]
  · intro t
    simp [verify_checksum, except_bind_error]

/-- Witness for the amended C1: the same string is hashed as a file when
the file system contains it and as text when it does not. -/
theorem verify_checksum_dispatch_spec_witness :
    verify_checksum [("f.bin", [97])] (.str "f.bin") "abc" =
      .ok ((sha256Hex [97]).toLower == "abc".toLower) ∧
    verify_checksum [] (.str "f.bin") "abc" =
      .ok ((compute_text_checksum "f.bin").toLower == "abc".toLower) :=
  ⟨(verify_checksum_dispatch_spec [("f.bin", [97])] "abc").1 "f.bin" [97] (by decide),
   (verify_checksum_dispatch_spec [] "abc").2.1 "f.bin" (by decide)⟩

/-! ## Key-reordering (for C6): the reordered-document relation

`KeyReorder a b` holds when `b` is obtained from `a` by permuting the
entries of mapping nodes, recursively, with array order preserved: at an
object node the values are first reordered recursively (pointwise, keys
unchanged) and the entry list is then permuted. -/

mutual

inductive KeyReorder : Val → Val → Prop
  | null : KeyReorder .null .null
  | bool (b : Bool) : KeyReorder (.bool b) (.bool b)
  | int (n : Int) : KeyReorder (.int n) (.int n)
  | str (s : String) : KeyReorder (.str s) (.str s)
  | arr {xs ys : List Val} : KeyReorderList xs ys →
      KeyReorder (.arr xs) (.arr ys)
  | obj {kvs mid kvs' : List (String × Val)} : KeyReorderEntries kvs mid →
      List.Perm mid kvs' → KeyReorder (.obj kvs) (.obj kvs')

inductive KeyReorderList : List Val → List Val → Prop
  | nil : KeyReorderList [] []
  | cons {x y : Val} {xs ys : List Val} : KeyReorder x y →
      KeyReorderList xs ys → KeyReorderList (x :: xs) (y :: ys)

inductive KeyReorderEntries :
    List (String × Val) → List (String × Val) → Prop
  | nil : KeyReorderEntries [] []
  | cons (k : String) {v w : Val} {xs ys : List (String × Val)} :
      KeyReorder v w → KeyReorderEntries xs ys →
      KeyReorderEntries ((k, v) :: xs) ((k, w) :: ys)

end

/-- No entry of `l` is keyed by `k`. -/
def keyFree (k : String) : List (String × Val) → Bool
  | [] => true
  | (k', _) :: rest => (k != k') && keyFree k rest

mutual

/-- Every mapping node of the document has duplicate-free keys (true of
every document arising from Python dicts). -/
def nodupKeysV : Val → Bool
  | .null => true
  | .bool _ => true
  | .int _ => true
  | .str _ => true
  | .arr xs => nodupKeysL xs
  | .obj kvs => nodupKeysE kvs

/-- `nodupKeysV` over an array's elements. -/
def nodupKeysL : List Val → Bool
  | [] => true
  | x :: xs => nodupKeysV x && nodupKeysL xs

/-- Duplicate-free keys of an entry list, and `nodupKeysV` of each value. -/
def nodupKeysE : List (String × Val) → Bool
  | [] => true
  | (k, v) :: rest => keyFree k rest && nodupKeysV v && nodupKeysE rest

end

theorem keyFree_not_mem {k : String} : ∀ {l : List (String × Val)},
    keyFree k l = true → k ∉ l.map Prod.fst := by
  intro l
  induction l with
  | nil => simp
  | cons p rest ih =>
      obtain ⟨k', v⟩ := p
      simp only [keyFree, Bool.and_eq_true, bne_iff_ne, ne_eq, List.map_cons,
        List.mem_cons, not_or]
      exact fun h => ⟨h.1, ih h.2⟩

theorem nodupKeysE_nodup : ∀ {l : List (String × Val)},
    nodupKeysE l = true → (l.map Prod.fst).Nodup := by
  intro l
  induction l with
  | nil => simp
  | cons p rest ih =>
      obtain ⟨k, v⟩ := p
      simp only [nodupKeysE, Bool.and_eq_true, List.map_cons, List.nodup_cons]
      exact fun h => ⟨keyFree_not_mem h.1.1, ih h.2⟩

theorem keyReorderEntries_keys : ∀ (xs ys : List (String × Val)),
    KeyReorderEntries xs ys → xs.map Prod.fst = ys.map Prod.fst := by
  intro xs
  induction xs with
  | nil => intro ys h; cases h; rfl
  | cons p rest ih =>
      intro ys h
      cases h with
      | cons k hv hrest => simp [ih _ hrest]

mutual

theorem sortVal_eq_of_keyReorder : ∀ {a b : Val}, KeyReorder a b →
    nodupKeysV a = true → sortVal a = sortVal b
  | _, _, .null, _ => rfl
  | _, _, .bool b, _ => rfl
  | _, _, .int n, _ => rfl
  | _, _, .str s, _ => rfl
  | _, _, .arr hl, hn => by
      simp only [sortVal]
      rw [sortValList_eq_of_keyReorder hl (by simpa [nodupKeysV] using hn)]
  | _, _, @KeyReorder.obj kvs mid kvs' he hp, hn => by
      have hnd : nodupKeysE kvs = true := by simpa [nodupKeysV] using hn
      have hA := sortEntriesVals_eq_of_keyReorder he hnd
      have hB := hp.map fun p : String × Val => (p.1, sortVal p.2)
      have hkeysnd : ((sortEntriesVals mid).map Prod.fst).Nodup := by
        rw [sortEntriesVals_keys, ← keyReorderEntries_keys kvs mid he]
        exact nodupKeysE_nodup hnd
      have hB' : List.Perm (sortEntriesVals mid) (sortEntriesVals kvs') := by
        rw [sortEntriesVals_eq_map mid, sortEntriesVals_eq_map kvs']
        exact hB
      simp only [sortVal]
      rw [hA, sortPairs_eq_of_perm hB' hkeysnd]

theorem sortValList_eq_of_keyReorder : ∀ {xs ys : List Val},
    KeyReorderList xs ys → nodupKeysL xs = true →
    sortValList xs = sortValList ys
  | _, _, .nil, _ => rfl
  | _, _, .cons hx hxs, hn => by
      simp only [nodupKeysL, Bool.and_eq_true] at hn
      simp only [sortValList]
      rw [sortVal_eq_of_keyReorder hx hn.1,
        sortValList_eq_of_keyReorder hxs hn.2]

theorem sortEntriesVals_eq_of_keyReorder : ∀ {xs ys : List (String × Val)},
    KeyReorderEntries xs ys → nodupKeysE xs = true →
    sortEntriesVals xs = sortEntriesVals ys
  | _, _, .nil, _ => rfl
  | _, _, .cons k hv hrest, hn => by
      simp only [nodupKeysE, Bool.and_eq_true] at hn
      simp only [sortEntriesVals]
      rw [sortVal_eq_of_keyReorder hv hn.1.2,
        sortEntriesVals_eq_of_keyReorder hrest hn.2]

end

/-- C6.  For every canonicalizable structured document (mapping keys
duplicate-free at every level, as Python dicts guarantee) and every
recursive reordering of its mapping keys (array order preserved),
`compute_state_checksum` of the reordered document equals
`compute_state_checksum` of the original: the checksum is independent of
key-insertion order. -/
theorem state_checksum_key_order_independent
    (S Sreordered : List (String × Val))
    (hre : KeyReorder (.obj S) (.obj Sreordered))
    (hnd : nodupKeysV (.obj S) = true) :
    compute_state_checksum Sreordered = compute_state_checksum S := by
  unfold compute_state_checksum
  rw [sortVal_eq_of_keyReorder hre hnd]

/-- Witness for C6: a two-level document with both the outer and an inner
mapping's keys reordered hashes identically. -/
theorem state_checksum_key_order_independent_witness :
    compute_state_checksum
        [("a", .obj [("x", .bool true), ("y", .null)]), ("b", .int 1)] =
      compute_state_checksum
        [("b", .int 1), ("a", .obj [("y", .null), ("x", .bool true)])] := by
  refine state_checksum_key_order_independent
    [("b", .int 1), ("a", .obj [("y", .null), ("x", .bool true)])]
    [("a", .obj [("x", .bool true), ("y", .null)]), ("b", .int 1)]
    (KeyReorder.obj
      (KeyReorderEntries.cons "b" (KeyReorder.int 1)
        (KeyReorderEntries.cons "a"
          (KeyReorder.obj
            (KeyReorderEntries.cons "y" KeyReorder.null
              (KeyReorderEntries.cons "x" (KeyReorder.bool true)
                KeyReorderEntries.nil))
            (List.Perm.swap ("x", Val.bool true) ("y", Val.null) []))
          KeyReorderEntries.nil))
      (List.Perm.swap ("a", Val.obj [("x", .bool true), ("y", .null)])
        ("b", Val.int 1) []))
    (by decide)

/-! ## URI-grammar lemmas (for C7) -/

theorem dropLit_iff : ∀ (p cs r : List Char), dropLit p cs = some r ↔ cs = p ++ r
  | [], cs, r => by simp [dropLit]
  | c :: p, [], r => by simp [dropLit]
  | c :: p, x :: cs, r => by
      by_cases hx : x = c
      · subst hx
        simp [dropLit, dropLit_iff p cs r]
      · simp [dropLit, hx, fun h => hx (Eq.symm h)]

theorem spanSlash_split : ∀ cs : List Char,
    cs = (spanSlash cs).1 ++ (spanSlash cs).2 ∧ ∀ c ∈ (spanSlash cs).1, c ≠ '/' := by
  intro cs
  induction cs with
  | nil => simp [spanSlash]
  | cons c rest ih =>
      by_cases hc : c = '/'
      · simp [spanSlash, hc]
      · simpa [spanSlash, hc] using ih

theorem spanSlash_append (d r : List Char) (hd : ∀ c ∈ d, c ≠ '/') :
    spanSlash (d ++ '/' :: r) = (d, '/' :: r) := by
  induction d with
  | nil => simp [spanSlash]
  | cons c rest ih =>
      have hc : c ≠ '/' := hd c (by simp)
      simp only [List.cons_append, spanSlash, if_neg hc, List.append_eq]
      rw [ih fun x hx => hd x (by simp [hx])]

theorem spanNewline_split : ∀ cs : List Char,
    cs = (spanNewline cs).1 ++ (spanNewline cs).2 ∧
      ∀ c ∈ (spanNewline cs).1, c ≠ '\n' := by
  intro cs
  induction cs with
  | nil => simp [spanNewline]
  | cons c rest ih =>
      by_cases hc : c = '\n'
      · simp [spanNewline, hc]
      · simpa [spanNewline, hc] using ih

theorem spanNewline_append (v t : List Char) (hv : ∀ c ∈ v, c ≠ '\n')
    (ht : t = [] ∨ t = ['\n']) : spanNewline (v ++ t) = (v, t) := by
  induction v with
  | nil =>
      rcases ht with rfl | rfl
      · simp [spanNewline]
      · simp [spanNewline]
  | cons c rest ih =>
      have hc : c ≠ '\n' := hv c (by simp)
      simp only [List.cons_append, spanNewline, if_neg hc, List.append_eq]
      rw [ih fun x hx => hv x (by simp [hx])]

/-- The language of `^AMOS://([^/]+)/([^/]+)/v(.+)$` under `re.match`
with Python semantics: `domain` and `module` are non-empty and
slash-free, `version` is non-empty and newline-free, and the string may
end with one trailing newline (matched by `$`, not captured). -/
def uriGrammar (cs : List Char) : Prop :=
  ∃ d m v t, cs = "AMOS://".data ++ d ++ '/' :: m ++ '/' :: 'v' :: v ++ t ∧
    d ≠ [] ∧ (∀ c ∈ d, c ≠ '/') ∧ m ≠ [] ∧ (∀ c ∈ m, c ≠ '/') ∧
    v ≠ [] ∧ (∀ c ∈ v, c ≠ '\n') ∧ (t = [] ∨ t = ['\n'])


/-- Completeness: a string of the grammar's shape parses to exactly its
three groups. -/
theorem matchUriChars_of_shape (d m v t : List Char)
    (hd : d ≠ []) (hd' : ∀ c ∈ d, c ≠ '/')
    (hm : m ≠ []) (hm' : ∀ c ∈ m, c ≠ '/')
    (hv : v ≠ []) (hv' : ∀ c ∈ v, c ≠ '\n')
    (ht : t = [] ∨ t = ['\n']) :
    matchUriChars ("AMOS://".data ++ d ++ '/' :: m ++ '/' :: 'v' :: v ++ t) =
      some (d, m, v) := by
  have h1 : dropLit "AMOS://".data
      ("AMOS://".data ++ (d ++ '/' :: (m ++ '/' :: ('v' :: (v ++ t))))) =
      some (d ++ '/' :: (m ++ '/' :: ('v' :: (v ++ t)))) :=
    (dropLit_iff _ _ _).mpr rfl
  have h2 := spanSlash_append d (m ++ '/' :: ('v' :: (v ++ t))) hd'
  have h3 := spanSlash_append m ('v' :: (v ++ t)) hm'
  have h4 := spanNewline_append v t hv' ht
  have hshape : "AMOS://".data ++ d ++ '/' :: m ++ '/' :: 'v' :: v ++ t
      = "AMOS://".data ++ (d ++ '/' :: (m ++ '/' :: ('v' :: (v ++ t)))) := by simp
  rw [hshape]
  simp only [matchUriChars, h1, h2, h3]
  simp only [matchVersion, h4]
  simp [hd, hm, hv]
  rcases ht with rfl | rfl <;> simp

theorem matchUriChars_shape_of {cs d m v : List Char}
    (h : matchUriChars cs = some (d, m, v)) :
    ∃ t, cs = "AMOS://".data ++ d ++ '/' :: m ++ '/' :: 'v' :: v ++ t ∧
      d ≠ [] ∧ (∀ c ∈ d, c ≠ '/') ∧ m ≠ [] ∧ (∀ c ∈ m, c ≠ '/') ∧
      v ≠ [] ∧ (∀ c ∈ v, c ≠ '\n') ∧ (t = [] ∨ t = ['\n']) := by
  unfold matchUriChars at h
  rcases hdl : dropLit "AMOS://".data cs with _ | rest
  · rw [hdl] at h; cases h
  rw [hdl] at h
  simp only [] at h
  obtain ⟨hsplit1, hfree1⟩ := spanSlash_split rest
  rcases hsp1 : (spanSlash rest).2 with _ | ⟨c1, rest2⟩
  · rw [hsp1] at h; simp at h
  rw [hsp1] at h
  by_cases hc1 : c1 = '/'
  swap
  · simp [hc1] at h
  subst hc1
  simp only [] at h
  obtain ⟨hsplit2, hfree2⟩ := spanSlash_split rest2
  rcases hsp2 : (spanSlash rest2).2 with _ | ⟨c2, rest3⟩
  · rw [hsp2] at h; simp at h
  rw [hsp2] at h
  by_cases hc2 : c2 = '/'
  swap
  · simp [hc2] at h
  subst hc2
  rcases rest3 with _ | ⟨c3, rest4⟩
  · simp at h
  by_cases hc3 : c3 = 'v'
  swap
  · simp [hc3] at h
  subst hc3
  simp only [] at h
  rcases hmv : matchVersion rest4 with _ | ver
  · simp [hmv] at h
  simp [hmv] at h
  obtain ⟨⟨hd1, hm1⟩, hd2, hm2, hv2⟩ := h
  subst hd2
  subst hm2
  subst hv2
  obtain ⟨hsplit3, hfree3⟩ := spanNewline_split rest4
  have hmv' : (spanNewline rest4).1 ≠ [] ∧
      ((spanNewline rest4).2 = [] ∨ (spanNewline rest4).2 = ['\n']) ∧
      (spanNewline rest4).1 = ver := by
    unfold matchVersion at hmv
    by_cases h1 : (spanNewline rest4).1 = []
    · simp [h1] at hmv
    · by_cases h2 : (spanNewline rest4).2 = [] ∨ (spanNewline rest4).2 = ['\n']
      · simp [h1, h2] at hmv
        exact ⟨h1, h2, hmv⟩
      · simp [h1, h2] at hmv
  obtain ⟨hvne, hend, hveq⟩ := hmv'
  refine ⟨(spanNewline rest4).2, ?_, hd1, hfree1, hm1, hfree2, ?_, ?_, hend⟩
  · have hcs := (dropLit_iff _ cs rest).mp hdl
    subst hcs
    have hrest4 : rest4 = ver ++ (spanNewline rest4).2 := by
      conv_lhs => rw [hsplit3]
      rw [hveq]
    conv_lhs =>
      rw [hsplit1, hsp1, hsplit2, hsp2, hrest4]
    simp
  · rw [← hveq]
    exact hvne
  · intro c hc
    rw [← hveq] at hc
    exact hfree3 c hc

theorem string_data_append (s t : String) : (s ++ t).data = s.data ++ t.data := rfl

/-- C7 counterexample.  A record with an empty domain contains no `/` in
its domain or module, yet its rendered URI does not parse back:
`from_uri` raises `ValueError` on it. -/
theorem from_uri_roundtrip_counterexample :
    VaultID.to_uri { domain := "", module := "m", version := "1" } =
      "AMOS:///m/v1" ∧
    VaultID.from_uri "t0" "AMOS:///m/v1" =
      .error (.valueError "Invalid VaultID URI format: AMOS:///m/v1") := by
  constructor
  · rfl
  · rfl

/-- C7 amended.  Round trip: for every record whose domain and module are
non-empty and slash-free and whose version is non-empty and newline-free,
`from_uri (to_uri r)` succeeds and preserves domain, module and version.
Parsing accepts exactly the regex language `^AMOS://([^/]+)/([^/]+)/v(.+)$`
under Python semantics (`.` excludes newlines; `$` also matches before one
final trailing newline) and raises `ValueError` on every other string. -/
theorem from_uri_spec :
    (∀ (r : VaultID) (now : String),
      r.domain ≠ "" → r.module ≠ "" → r.version ≠ "" →
      (∀ c ∈ r.domain.data, c ≠ '/') → (∀ c ∈ r.module.data, c ≠ '/') →
      (∀ c ∈ r.version.data, c ≠ '\n') →
      VaultID.from_uri now r.to_uri =
        .ok { domain := r.domain, module := r.module, version := r.version,
              created_at := some now }) ∧
    (∀ (s now : String), ¬ uriGrammar s.data →
      VaultID.from_uri now s =
        .error (.valueError ("Invalid VaultID URI format: " ++ s))) ∧
    (∀ (s now : String) (r : VaultID),
      VaultID.from_uri now s = .ok r →
      uriGrammar s.data ∧
      (∃ t, s.data = "AMOS://".data ++ r.domain.data ++ '/' :: r.module.data
          ++ '/' :: 'v' :: r.version.data ++ t ∧ (t = [] ∨ t = ['\n'])) ∧
      r.predecessor = none ∧ r.checksum = none ∧ r.created_at = some now) := by
  refine ⟨?_, ?_, ?_⟩
  · intro r now hd hm hv hd' hm' hv'
    have hdne : r.domain.data ≠ [] := fun h => hd (String.ext h)
    have hmne : r.module.data ≠ [] := fun h => hm (String.ext h)
    have hvne : r.version.data ≠ [] := fun h => hv (String.ext h)
    have hdata : (VaultID.to_uri r).data =
        "AMOS://".data ++ r.domain.data ++ '/' :: r.module.data
          ++ '/' :: 'v' :: r.version.data ++ [] := by
      simp [VaultID.to_uri, string_data_append]
    unfold VaultID.from_uri
    rw [hdata, matchUriChars_of_shape r.domain.data r.module.data r.version.data
      [] hdne hd' hmne hm' hvne hv' (Or.inl rfl)]
  · intro s now hng
    unfold VaultID.from_uri
    rcases hmc : matchUriChars s.data with _ | ⟨d, m, v⟩
    · rfl
    · exfalso
      obtain ⟨t, heq, hprops⟩ := matchUriChars_shape_of hmc
      exact hng ⟨d, m, v, t, heq, hprops⟩
  · intro s now r h
    unfold VaultID.from_uri at h
    rcases hmc : matchUriChars s.data with _ | ⟨d, m, v⟩
    · rw [hmc] at h
      cases h
    · rw [hmc] at h
      cases h
      obtain ⟨t, heq, hprops⟩ := matchUriChars_shape_of hmc
      exact ⟨⟨d, m, v, t, heq, hprops⟩,
        ⟨t, heq, hprops.2.2.2.2.2.2⟩, rfl, rfl, rfl⟩

/-- Witness for the amended C7: the spec's own example record
round-trips, and a non-matching string is rejected. -/
theorem from_uri_spec_witness :
    VaultID.from_uri "t0"
        (VaultID.to_uri { domain := "MirrorDNA", module := "Session",
                          version := "1.0" }) =
      .ok { domain := "MirrorDNA", module := "Session", version := "1.0",
            created_at := some "t0" } ∧
    VaultID.from_uri "t0" "hello" =
      .error (.valueError "Invalid VaultID URI format: hello") := by
  constructor
  · exact from_uri_spec.1
      { domain := "MirrorDNA", module := "Session", version := "1.0" } "t0"
      (by decide) (by decide) (by decide) (by decide) (by decide) (by decide)
  · refine from_uri_spec.2.1 "hello" "t0" ?_
    rintro ⟨d, m, v, t, heq, -⟩
    simp at heq
